import Mathlib

/-
Verification development for the use-ajv-form repository.

The embedding models the form hook of src/src/index.ts together with the
utility layer of the conditional-dependency snapshot (getErrors,
resolveConditionalField, getInitial, evaluateFieldDependency, getFormState)
and the default message table (defaultAJVMessages).

JavaScript objects are modelled as insertion-ordered association lists,
JavaScript primitive values as the JSValue type (with undefined and null
kept distinct), schema documents as the JsonVal tree, and code that can
raise a TypeError as functions into Except String.
-/

namespace AjvForm

/-- A JavaScript primitive value as stored in a form field. -/
inductive JSValue where
  | str : String → JSValue
  | num : Int → JSValue
  | boolean : Bool → JSValue
  | null : JSValue
  | undef : JSValue
deriving DecidableEq, Repr, Inhabited

/-- Embeds getValue: null and undefined are coerced to the empty string,
every other value passes through unchanged. -/
def getValue : JSValue → JSValue
  | .null => .str ""
  | .undef => .str ""
  | v => v

/-- A JSON document (used for schemas): primitives, arrays and objects.
Objects are insertion-ordered association lists, as in JavaScript. -/
inductive JsonVal where
  | str : String → JsonVal
  | num : Int → JsonVal
  | boolean : Bool → JsonVal
  | null : JsonVal
  | arr : List JsonVal → JsonVal
  | obj : List (String × JsonVal) → JsonVal
deriving Repr, Inhabited

/-- JavaScript truthiness of a JSON value. -/
def jsTruthy : JsonVal → Bool
  | .str s => s ≠ ""
  | .num n => n ≠ 0
  | .boolean b => b
  | .null => false
  | .arr _ => true
  | .obj _ => true

/-- Digits of a natural number, most significant first, with fuel so the
recursion is structural. -/
def digitChar : Nat → Char
  | 0 => '0' | 1 => '1' | 2 => '2' | 3 => '3' | 4 => '4'
  | 5 => '5' | 6 => '6' | 7 => '7' | 8 => '8' | _ => '9'

def natToStrAux : Nat → Nat → List Char
  | 0, _ => []
  | fuel + 1, n =>
    if n < 10 then [digitChar n]
    else natToStrAux fuel (n / 10) ++ [digitChar (n % 10)]

/-- Decimal rendering of a natural number (as JavaScript prints it). -/
def natToStr (n : Nat) : String := String.mk (natToStrAux (n + 1) n)

/-- Decimal rendering of an integer (as JavaScript prints it). -/
def intToStr : Int → String
  | .ofNat n => natToStr n
  | .negSucc n => "-" ++ natToStr (n + 1)

/-- Value of a list of decimal digit characters. -/
def digitsVal (ds : List Char) : Nat :=
  ds.foldl (fun acc c => acc * 10 + (c.toNat - 48)) 0

/-- All-digit check plus value, for canonical array indexing. -/
def digitsToNat : List Char → Option Nat
  | [] => none
  | ds => if ds.all (fun c => c.isDigit) then some (digitsVal ds) else none

/-- A string is a canonical array index when it is exactly the decimal
rendering of some natural number. -/
def canonicalNat (k : String) : Option Nat :=
  match digitsToNat k.data with
  | some n => if natToStr n = k then some n else none
  | none => none

/-- JavaScript property access current[key] on a JSON value: object key
lookup, canonical numeric indexing into arrays, undefined otherwise. -/
def jsIndex (j : JsonVal) (k : String) : Option JsonVal :=
  match j with
  | .obj fields => (fields.find? (fun p => p.1 = k)).map (fun p => p.2)
  | .arr xs =>
    match canonicalNat k with
    | some i => xs.get? i
    | none => none
  | _ => none

/-- Property access that also demands the found value be truthy (models a
JavaScript `if (x.k)` guard on the access). -/
def jsIndexTruthy (j : JsonVal) (k : String) : Option JsonVal :=
  match jsIndex j k with
  | some v => if jsTruthy v then some v else none
  | none => none

/-- Coercion of a JSON value used as an object key, as JavaScript would
stringify it (arrays and objects are out of scope and map to ""). -/
def jsKeyString : JsonVal → String
  | .str s => s
  | .num n => intToStr n
  | .boolean true => "true"
  | .boolean false => "false"
  | .null => "null"
  | .arr _ => ""
  | .obj _ => ""

/-- Strict equality (===) between a schema constant and a form value. -/
def jsStrictEq : JsonVal → JSValue → Bool
  | .str a, .str b => a = b
  | .num a, .num b => a = b
  | .boolean a, .boolean b => a = b
  | .null, .null => true
  | _, _ => false

/-- Boolean prefix test on character lists. -/
def prefixCL : List Char → List Char → Bool
  | [], _ => true
  | _ :: _, [] => false
  | p :: ps, c :: cs => p = c && prefixCL ps cs

/-- Boolean substring test on character lists (pattern first). -/
def hasSubstrCL (pat : List Char) : List Char → Bool
  | [] => prefixCL pat []
  | c :: t => prefixCL pat (c :: t) || hasSubstrCL pat t

/-- String.includes of JavaScript. -/
def hasSubstr (s pat : String) : Bool := hasSubstrCL pat.data s.data

/-- instancePath.slice(1): the string with its first character removed. -/
def strDrop1 (s : String) : String := String.mk (s.data.drop 1)

/-- schemaPath.replace(of the leading JSON Pointer marker): drops a leading
hash-slash pair when present. -/
def stripHashPrefix (s : String) : String :=
  match s.data with
  | '#' :: '/' :: rest => String.mk rest
  | _ => s

def splitSlashCL : List Char → List Char → List String
  | [], cur => [String.mk cur.reverse]
  | c :: t, cur =>
    if c = '/' then String.mk cur.reverse :: splitSlashCL t []
    else splitSlashCL t (c :: cur)

/-- String.split on the slash character. -/
def splitSlash (s : String) : List String := splitSlashCL s.data []

/-- Strip an exact prefix from a character list, returning the remainder. -/
def stripPrefixCL : List Char → List Char → Option (List Char)
  | [], s => some s
  | _ :: _, [] => none
  | a :: ps, b :: cs => if a = b then stripPrefixCL ps cs else none

/-- Span of leading decimal digits. -/
def spanDigitsCL : List Char → List Char × List Char
  | [] => ([], [])
  | c :: t =>
    if c.isDigit then
      let r := spanDigitsCL t
      (c :: r.1, r.2)
    else ([], c :: t)

/-- Attempt to match the conditional marker (the word allOf, a slash, one or
more digits, a slash and the word if) at the head of the list, returning the
parsed index. -/
def matchAllOfAt (cs : List Char) : Option Nat :=
  match stripPrefixCL "allOf/".data cs with
  | some rest =>
    let sp := spanDigitsCL rest
    if sp.1 ≠ [] && prefixCL "/if".data sp.2 then some (digitsVal sp.1) else none
  | none => none

/-- Leftmost match of the conditional marker anywhere in the list (embeds
the regular-expression search of resolveConditionalField). -/
def findAllOfIfIndex : List Char → Option Nat
  | [] => none
  | c :: t =>
    match matchAllOfAt (c :: t) with
    | some i => some i
    | none => findAllOfIfIndex t

/-- The params object carried by a raw AJV error record. -/
structure AJVErrorParams where
  limit : Option Int := none
  missingProperty : Option String := none
  allowedValues : Option (List String) := none
  typeName : Option String := none
  format : Option String := none
deriving DecidableEq, Repr, Inhabited

/-- A raw error record as produced by the Validator (the ErrorObject wire
format: instancePath, schemaPath, keyword, params, optional message). -/
structure ErrorObject where
  instancePath : String
  schemaPath : String
  keyword : String
  params : AJVErrorParams
  message : Option String := none
deriving DecidableEq, Repr, Inhabited

/-- Rendering of a possibly-missing string interpolated into a template
(JavaScript prints undefined for a missing value). -/
def optToStr : Option String → String
  | some s => s
  | none => "undefined"

def limitToStr : Option Int → String
  | some n => intToStr n
  | none => "undefined"

def joinComma : List String → String
  | [] => ""
  | [x] => x
  | x :: y :: rest => x ++ ", " ++ joinComma (y :: rest)

def allowedToStr : Option (List String) → String
  | some xs => joinComma xs
  | none => "undefined"

/-- Embeds defaultAJVMessages from the constants module: the keyword-indexed
table of default message templates, each a pure function of the params. -/
def defaultAJVMessages (keyword : String) : Option (AJVErrorParams → String) :=
  if keyword = "required" then
    some (fun p => optToStr p.missingProperty ++ " is required.")
  else if keyword = "minLength" then
    some (fun p =>
      if p.limit = some 1 then "This field is required."
      else "Should be at least " ++ limitToStr p.limit ++ " characters long.")
  else if keyword = "maxLength" then
    some (fun p => "Should not exceed " ++ limitToStr p.limit ++ " characters.")
  else if keyword = "pattern" then
    some (fun _ => "Invalid format.")
  else if keyword = "minimum" then
    some (fun p => "Should be greater than or equal to " ++ limitToStr p.limit ++ ".")
  else if keyword = "maximum" then
    some (fun p => "Should be less than or equal to " ++ limitToStr p.limit ++ ".")
  else if keyword = "enum" then
    some (fun p => allowedToStr p.allowedValues ++ " are the only allowed values.")
  else if keyword = "type" then
    some (fun p => "Should be of type " ++ optToStr p.typeName ++ ".")
  else if keyword = "format" then
    some (fun p => "Should be in " ++ optToStr p.format ++ " format.")
  else none

/-- Caller-supplied message overrides (the userDefinedMessages option):
keyword-indexed record of template functions. -/
abbrev MsgTable := List (String × (AJVErrorParams → String))

def lookupMsgFn (u : MsgTable) (keyword : String) : Option (AJVErrorParams → String) :=
  (u.find? (fun p => p.1 = keyword)).map (fun p => p.2)

/-- Embeds getErrorMessage: look the keyword up in the default table merged
with the user table (user entries win), apply the template to the params;
otherwise fall back to the raw Validator message, and failing that to the
placeholder text. -/
def getErrorMessage (error : ErrorObject) (userDefinedMessages : MsgTable) : String :=
  match lookupMsgFn userDefinedMessages error.keyword with
  | some f => f error.params
  | none =>
    match defaultAJVMessages error.keyword with
    | some f => f error.params
    | none =>
      match error.message with
      | some m => if m = "" then "Unknown validation error" else m
      | none => "Unknown validation error"

/-- Schema-path traversal of resolveConditionalField: every path segment
must resolve to a present, truthy node. -/
def traverseOk (j : JsonVal) : List String → Bool
  | [] => true
  | k :: rest =>
    match jsIndex j k with
    | some v => jsTruthy v && traverseOk v rest
    | none => false

/-- Embeds resolveConditionalField: guard against an empty path or a falsy
schema, traverse the schema along the split path, then on a conditional
marker in the path take the first required field of the indexed conditional
clause, falling back to its first declared property key. -/
def resolveConditionalField (schemaPath : String) (schema : JsonVal) : Option String :=
  if schemaPath = "" ∨ jsTruthy schema = false then none
  else if traverseOk schema (splitSlash (stripHashPrefix schemaPath)) = false then none
  else
    match findAllOfIfIndex schemaPath.data with
    | some idx =>
      match (jsIndex schema "allOf").bind (fun a => jsIndex a (natToStr idx)) with
      | some allOfBlock =>
        match jsIndexTruthy allOfBlock "then" with
        | some thenClause =>
          match jsIndex thenClause "required" with
          | some (.arr (r :: _)) => some (jsKeyString r)
          | _ =>
            match jsIndex thenClause "properties" with
            | some (.obj (p :: _)) => some p.1
            | _ => none
        | none => none
      | none => none
    | none => none

/-- Embeds getFieldName of the resolver module: an empty instancePath has no
field name, otherwise the path with its first character removed. -/
def getFieldNameFromPath (instancePath : String) : Option String :=
  if instancePath = "" then none else some (strDrop1 instancePath)

/-- JavaScript falsiness of a field-name variable holding null or a string. -/
def jsNameFalsy : Option String → Bool
  | none => true
  | some s => s = ""

def optSchemaTruthy : Option JsonVal → Bool
  | none => false
  | some j => jsTruthy j

/-- The per-error field-name resolution of getErrors: instancePath first,
then the conditional fallback when a schema is available and the schemaPath
mentions an if clause; a falsy result resolves to no field at all. -/
def resolvedFieldName (schemaOpt : Option JsonVal) (e : ErrorObject) : Option String :=
  let f0 := getFieldNameFromPath e.instancePath
  let f1 :=
    if jsNameFalsy f0 && optSchemaTruthy schemaOpt && hasSubstr e.schemaPath "/if" then
      resolveConditionalField e.schemaPath (schemaOpt.getD JsonVal.null)
    else f0
  if jsNameFalsy f1 then none else f1

/-- Association-list update with JavaScript object-spread semantics: an
existing key keeps its position and gets the new value, a new key is
appended. -/
def setKeyAL {β : Type} (l : List (String × β)) (k : String) (v : β) : List (String × β) :=
  if l.any (fun p => p.1 = k) then
    l.map (fun p => if p.1 = k then (k, v) else p)
  else l ++ [(k, v)]

/-- Association-list key lookup (first match, as JavaScript objects keep
unique keys). -/
def lookupAL {β : Type} : List (String × β) → String → Option β
  | [], _ => none
  | p :: t, k => if p.1 = k then some p.2 else lookupAL t k

def addSeen (seen : List String) (f : String) : List String :=
  if seen.contains f then seen else seen ++ [f]

/-- One step of the getErrors reduce: resolve the field name, drop
unresolvable errors, suppress an if-path error for an already-seen field,
otherwise record the rendered message and mark the field seen. -/
def getErrorsStep (u : MsgTable) (schemaOpt : Option JsonVal)
    (st : List (String × String) × List String) (e : ErrorObject) :
    List (String × String) × List String :=
  match resolvedFieldName schemaOpt e with
  | none => st
  | some f =>
    if st.2.contains f && hasSubstr e.schemaPath "/if" then st
    else (setKeyAL st.1 f (getErrorMessage e u), addSeen st.2 f)

def getErrorsAux (u : MsgTable) (schemaOpt : Option JsonVal)
    (es : List ErrorObject) : List (String × String) × List String :=
  es.foldl (getErrorsStep u schemaOpt) ([], [])

/-- Embeds getErrors: the resolution pass over the raw error list, producing
the field-name-to-message record. -/
def getErrors (es : List ErrorObject) (u : MsgTable) (schemaOpt : Option JsonVal) :
    List (String × String) :=
  (getErrorsAux u schemaOpt es).1

/-- The per-field record of the form state: current value, current error
message (empty string when there is no known violation), and the dynamic
required flag. -/
structure FieldState where
  value : JSValue
  error : String
  isRequired : Bool
deriving DecidableEq, Repr, Inhabited

/-- The form state: an insertion-ordered mapping from field name to
FieldState. -/
abbrev FormState := List (String × FieldState)

/-- Field lookup in a form state. -/
def getField (s : FormState) (k : String) : Option FieldState := lookupAL s k

/-- Field update in a form state with object-spread semantics. -/
def setKey (s : FormState) (k : String) (v : FieldState) : FormState := setKeyAL s k v

/-- The required list of a schema read as string entries (schema.required
with a missing or non-array value read as the empty list). -/
def requiredKeys (schema : JsonVal) : List String :=
  match jsIndex schema "required" with
  | some (.arr xs) =>
    xs.filterMap (fun x => match x with | .str s => some s | _ => none)
  | _ => []

/-- Embeds getInitial of the conditional-dependency snapshot: every initial
key becomes a field with its initial value, an empty error, and the static
required flag from the schema. -/
def getInitial (initialState : List (String × JSValue)) (schema : JsonVal) : FormState :=
  initialState.map (fun p => (p.1, ⟨p.2, "", (requiredKeys schema).contains p.1⟩))

/-- The pluggable compiled Validator: takes the built data object, may
throw, and otherwise reports validity plus the raw error list (null when the
run left no errors). -/
abbrev Validator := List (String × JSValue) → Except String (Bool × Option (List ErrorObject))

/-- The data object built from a form state: the current value of every field
with null and undefined coerced to the empty string. -/
def buildData (state : FormState) : List (String × JSValue) :=
  state.map (fun p => (p.1, getValue p.2.value))

/-- Embeds isFormValid: no field currently holds a non-empty error. -/
def isFormValid (state : FormState) : Bool :=
  !(state.any (fun p => p.2.error ≠ ""))

def isFormDirtyAux (initialState : FormState) : List (String × FieldState) → Except String Bool
  | [] => .ok false
  | p :: rest =>
    match getField initialState p.1 with
    | none => .error "TypeError: cannot read properties of undefined"
    | some ifs => if p.2.value ≠ ifs.value then .ok true else isFormDirtyAux initialState rest

/-- Embeds isFormDirty: the current value of some field differs from the initial
snapshot; reading the snapshot at a key it does not hold raises a
TypeError. -/
def isFormDirty (currentState initialState : FormState) : Except String Bool :=
  isFormDirtyAux initialState currentState

/-- Embeds validateField: build the single-key data object from the current value of the field, run the Validator, resolve the raw errors, and write the
resolved message into the error of the field — but only when the form is dirty;
a field name absent from the state raises a TypeError. -/
def validateField (v : Validator) (u : MsgTable) (initialState state : FormState)
    (fieldName : String) : Except String FormState :=
  match getField state fieldName with
  | none => .error "TypeError: cannot read properties of undefined"
  | some fs =>
    match v [(fieldName, fs.value)] with
    | .error msg => .error msg
    | .ok r =>
      let fieldErrors := if r.1 then [] else getErrors (r.2.getD []) u none
      match isFormDirty state initialState with
      | .error msg => .error msg
      | .ok dirty =>
        .ok (setKey state fieldName
          { fs with error := if dirty then (lookupAL fieldErrors fieldName).getD "" else "" })

/-- Embeds handleBlur, which simply delegates to validateField. -/
def handleBlur (v : Validator) (u : MsgTable) (initialState state : FormState)
    (fieldName : String) : Except String FormState :=
  validateField v u initialState state fieldName

/-- Embeds setFormState (the set operation of the hook of src/src/index.ts):
every patched key gets the coerced new value and keeps its previous error
(empty when the field is new); untouched fields are untouched. -/
def setFormState (state : FormState) (form : List (String × JSValue)) : FormState :=
  form.foldl (fun newState p =>
    match getField newState p.1 with
    | some fs => setKey newState p.1 { fs with value := getValue p.2 }
    | none => setKey newState p.1 { value := getValue p.2, error := "", isRequired := false })
    state

def setErrorsImplAux (state : FormState) (acc : FormState) :
    List (String × String) → Except String FormState
  | [] => .ok acc
  | (k, msg) :: rest =>
    match getField state k with
    | none => .error "TypeError: cannot read properties of undefined"
    | some fs =>
      setErrorsImplAux state (setKey acc k ⟨getValue fs.value, msg, false⟩) rest

/-- Embeds the private setErrors helper of the hook: starting from a copy of
the state, every field named in the resolved record gets its value coerced
through getValue and its error replaced (an empty message stays empty, which
is what the JavaScript or-with-empty-string fallback computes); the fresh
record carries no required flag. Naming a field absent from the state raises
a TypeError. -/
def setErrorsImpl (state : FormState) (errors : List (String × String)) :
    Except String FormState :=
  setErrorsImplAux state state errors

/-- The public setErrors operation: resolve the externally sourced error
list and merge it. -/
def setErrorsOp (u : MsgTable) (state : FormState) (errors : List ErrorObject) :
    Except String FormState :=
  setErrorsImpl state (getErrors errors u none)

/-- The result record of validateForm. -/
structure VResult where
  isValid : Bool
  data : Option (List (String × JSValue))
deriving DecidableEq, Repr, Inhabited

/-- The inner identity reduce of validateForm that rebuilds the resolved
error record key by key (getValue is the identity on the message strings). -/
def rebuildErrors (errors : List (String × String)) : List (String × String) :=
  errors.foldl (fun acc p => setKeyAL acc p.1 p.2) []

/-- The body of validateForm before its try-catch boundary: build the full
data object, run the Validator; on a reported failure resolve the errors and
write them through the setErrors helper and answer invalid with null data;
otherwise answer invalid when some field still holds an error, and valid
with the data object when none does. -/
def validateFormBody (v : Validator) (u : MsgTable) (state : FormState) :
    Except String (FormState × VResult) :=
  match v (buildData state) with
  | .error msg => .error msg
  | .ok r =>
    if !r.1 && r.2.isSome then
      match setErrorsImpl state (rebuildErrors (getErrors (r.2.getD []) u none)) with
      | .error msg => .error msg
      | .ok newState => .ok (newState, ⟨false, none⟩)
    else if !isFormValid state then .ok (state, ⟨false, none⟩)
    else .ok (state, ⟨true, some (buildData state)⟩)

/-- Embeds validateForm: the body wrapped in the try-catch that converts any
exception into an invalid result with null data and an unchanged state. -/
def validateForm (v : Validator) (u : MsgTable) (state : FormState) : FormState × VResult :=
  match validateFormBody v u state with
  | .ok r => r
  | .error _ => (state, ⟨false, none⟩)

/-- Embeds resetForm: replace the state with the snapshot taken at
construction. -/
def resetForm (_state : FormState) (snapshot : FormState) : FormState := snapshot

/-- The dependency map: controlling field name to dependent field names. -/
abbrev DepMap := List (String × List String)

def depsOf (deps : DepMap) (k : String) : List String :=
  ((deps.find? (fun p => p.1 = k)).map (fun p => p.2)).getD []

def ifPropConst (c : JsonVal) (parentFieldName : String) : Option JsonVal :=
  (((jsIndex c "if").bind (fun i => jsIndex i "properties")).bind
    (fun ps => jsIndex ps parentFieldName)).bind (fun p => jsIndex p "const")

def requiredIncludes (c : JsonVal) (fieldName : String) : Bool :=
  match (jsIndex c "then").bind (fun t => jsIndex t "required") with
  | some (.arr xs) =>
    xs.any (fun x => match x with | .str s => s = fieldName | _ => false)
  | _ => false

/-- Embeds evaluateFieldDependency: some conditional clause of the schema
has an if-properties constant for the parent field strictly equal to the
value of the parent and lists the dependent field in its then-required list. -/
def evaluateFieldDependency (fieldName parentFieldName : String) (parentValue : JSValue)
    (schema : JsonVal) : Bool :=
  match jsIndex schema "allOf" with
  | some (.arr conds) =>
    conds.any (fun c =>
      (match ifPropConst c parentFieldName with
       | some cv => jsStrictEq cv parentValue
       | none => false)
      && requiredIncludes c fieldName)
  | _ => false

/-- Embeds updateFieldValue: spread the previous record (empty when the
field is new) with the new value. -/
def updateFieldValue (state : FormState) (fieldName : String) (value : JSValue) : FormState :=
  match getField state fieldName with
  | some fs => setKey state fieldName { fs with value := value }
  | none => setKey state fieldName { value := value, error := "", isRequired := false }

/-- One step of the updateDynamicRequiredFields reduce: spread the previous
record of the dependent field (an absent field contributes an undefined
value and empty error) with the recomputed required flag. -/
def udrfStep (parentFieldName : String) (parentValue : JSValue) (schema : JsonVal)
    (updatedState : FormState) (childFieldName : String) : FormState :=
  let isReq := evaluateFieldDependency childFieldName parentFieldName parentValue schema
  match getField updatedState childFieldName with
  | some fs => setKey updatedState childFieldName { fs with isRequired := isReq }
  | none =>
    setKey updatedState childFieldName { value := JSValue.undef, error := "", isRequired := isReq }

/-- Embeds updateDynamicRequiredFields: recompute the required flag of every
dependent of the parent field from the schema conditions. -/
def updateDynamicRequiredFields (state : FormState) (parentFieldName : String)
    (parentValue : JSValue) (fieldDependencies : DepMap) (schema : JsonVal) : FormState :=
  (depsOf fieldDependencies parentFieldName).foldl
    (udrfStep parentFieldName parentValue schema) state

/-- Embeds getFormState: apply each patched value and recompute the dynamic
required flags of its dependents. -/
def getFormState (prevState : FormState) (form : List (String × JSValue))
    (fieldDependencies : DepMap) (schema : JsonVal) : FormState :=
  form.foldl (fun updatedState p =>
    let value := getValue p.2
    updateDynamicRequiredFields (updateFieldValue updatedState p.1 value)
      p.1 value fieldDependencies schema)
    prevState

/-- A caller-issued operation on one form instance. -/
inductive FormOp where
  | setOp (patch : List (String × JSValue))
  | blurOp (fieldName : String)
  | validateOp
  | setErrorsExternal (errs : List ErrorObject)

/-- One public operation applied to the state; an operation that raises
leaves the state unchanged (the exception propagates before any state
write). -/
def runOp (v : Validator) (u : MsgTable) (snapshot : FormState) (state : FormState) :
    FormOp → FormState
  | .setOp patch => setFormState state patch
  | .blurOp f =>
    match handleBlur v u snapshot state f with
    | .ok s => s
    | .error _ => state
  | .validateOp => (validateForm v u state).1
  | .setErrorsExternal errs =>
    match setErrorsOp u state errs with
    | .ok s => s
    | .error _ => state

def runOps (v : Validator) (u : MsgTable) (snapshot : FormState)
    (state : FormState) (ops : List FormOp) : FormState :=
  ops.foldl (runOp v u snapshot) state

/-! Spec-side definitions, written from the words of the claims (marked as
such); each is compared against the code-side definitions above. -/

/-- Resolution of the indexed conditional clause as the claim words it: the
first entry of the then-required list when that list is non-empty, else the
first declared key of the then-properties object, else nothing. -/
def claimThenField (schema : JsonVal) (i : Nat) : Option String :=
  match (jsIndex schema "allOf").bind (fun a => jsIndex a (natToStr i)) with
  | some block =>
    match jsIndexTruthy block "then" with
    | some t =>
      match jsIndex t "required" with
      | some (.arr (r :: _)) => some (jsKeyString r)
      | _ =>
        match jsIndex t "properties" with
        | some (.obj (p :: _)) => some p.1
        | _ => none
    | none => none
  | none => none

/-- Field-name resolution exactly as claim C3 states it: a non-empty
instancePath resolves to the path minus its leading separator; otherwise a
schemaPath carrying a conditional marker resolves through the indexed
conditional clause; otherwise the error contributes no field. -/
def claimResolvedField (schema : JsonVal) (e : ErrorObject) : Option String :=
  if e.instancePath ≠ "" then some (strDrop1 e.instancePath)
  else
    match findAllOfIfIndex e.schemaPath.data with
    | some i => claimThenField schema i
    | none => none

def filterEmptyName : Option String → Option String
  | some s => if s = "" then none else some s
  | none => none

/-- Claim C3 as amended: the conditional fallback additionally requires the
schema to be truthy and the full schemaPath to traverse to truthy nodes, and
an empty resolved name is dropped. -/
def amendedResolvedField (schema : JsonVal) (e : ErrorObject) : Option String :=
  if e.instancePath ≠ "" then some (strDrop1 e.instancePath)
  else if jsTruthy schema && traverseOk schema (splitSlash (stripHashPrefix e.schemaPath)) then
    match findAllOfIfIndex e.schemaPath.data with
    | some i => filterEmptyName (claimThenField schema i)
    | none => none
  else none

/-- An if clause currently matches a form state, as claim C8 words it: the
properties of the clause are non-empty and the constant of each one is strictly
equal to the current value of the field it names. -/
def ifClauseMatches (state : FormState) (c : JsonVal) : Bool :=
  match (jsIndex c "if").bind (fun i => jsIndex i "properties") with
  | some (.obj props) =>
    !props.isEmpty && props.all (fun p =>
      match jsIndex p.2 "const" with
      | some cv =>
        match getField state p.1 with
        | some fs => jsStrictEq cv fs.value
        | none => false
      | none => false)
  | _ => false

/-- Claim C8 as stated: the if clause of some conditional rule currently matches
the state and lists the field in its then-required list. -/
def someConditionalRequires (schema : JsonVal) (state : FormState) (field : String) : Bool :=
  match jsIndex schema "allOf" with
  | some (.arr conds) =>
    conds.any (fun c => ifClauseMatches state c && requiredIncludes c field)
  | _ => false

/-- The conditional clauses of a schema. -/
def allOfList (schema : JsonVal) : List JsonVal :=
  match jsIndex schema "allOf" with
  | some (.arr l) => l
  | _ => []

/-- The if-properties constant of a clause for the given controlling field is
strictly equal to the given value. -/
def constMatches (c : JsonVal) (parentFieldName : String) (v : JSValue) : Prop :=
  ∃ cv, ifPropConst c parentFieldName = some cv ∧ jsStrictEq cv v = true

/-- The string entries of the then-required list of a clause. -/
def thenRequiredNames (c : JsonVal) : List String :=
  match (jsIndex c "then").bind (fun t => jsIndex t "required") with
  | some (.arr xs) =>
    xs.filterMap (fun x => match x with | .str s => some s | _ => none)
  | _ => []

/-- The dirty check as the claim words it: some field of the current state
holds a value different from the snapshot value at its key. -/
def dirtySpec (currentState initialState : FormState) : Bool :=
  currentState.any (fun p =>
    !((getField initialState p.1).map (fun fs => fs.value) == some p.2.value))

/-- The pure image of the private setErrors helper on inputs where every
named field exists in the state: used to characterise its successful runs. -/
def applyErrors (state acc : FormState) : List (String × String) → FormState
  | [] => acc
  | (k, m) :: rest =>
    applyErrors state
      (setKey acc k ⟨getValue (((getField state k).getD default).value), m, false⟩) rest

/-! Concrete instances used by the counterexamples and witnesses. -/

/-- A conditional schema: when locationType is onsite, location is
required. -/
def condSchema : JsonVal := .obj [("allOf", .arr [
  .obj [("if", .obj [("properties", .obj [("locationType", .obj [("const", .str "onsite")])])]),
        ("then", .obj [("required", .arr [.str "location"])])]])]

/-- An error record whose schemaPath carries the conditional marker but does
not traverse the schema (it names a segment the if clause does not hold). -/
def badTraversalError : ErrorObject :=
  { instancePath := "", schemaPath := "#/allOf/0/if/bogus", keyword := "if", params := {} }

/-- The plain conditional-if error AJV emits for the schema above. -/
def ifError : ErrorObject :=
  { instancePath := "", schemaPath := "#/allOf/0/if", keyword := "if", params := {} }

/-- A direct leaf violation on the location field. -/
def directLocationError : ErrorObject :=
  { instancePath := "/location", schemaPath := "#/allOf/0/then/required", keyword := "required",
    params := { missingProperty := some "location" } }

/-- A minLength error with limit one and no field path. -/
def minLenOneError : ErrorObject :=
  { instancePath := "", schemaPath := "", keyword := "minLength", params := { limit := some 1 } }

/-- A minLength violation on a field named b. -/
def minLenErrB : ErrorObject :=
  { instancePath := "/b", schemaPath := "#/properties/b/minLength", keyword := "minLength",
    params := { limit := some 3 } }

/-- A minLength violation on a field named title. -/
def minLenErrTitle : ErrorObject :=
  { instancePath := "/title", schemaPath := "#/properties/title/minLength",
    keyword := "minLength", params := { limit := some 3 },
    message := some "must NOT have fewer than 3 characters" }

/-- A Validator that accepts everything. -/
def acceptingValidator : Validator := fun _ => .ok (true, none)

/-- A Validator that always rejects with the single error on b. -/
def rejectingValidatorB : Validator := fun _ => .ok (false, some [minLenErrB])

/-- A Validator that always rejects with the single error on title. -/
def rejectingValidatorTitle : Validator := fun _ => .ok (false, some [minLenErrTitle])

/-- A Validator that always throws. -/
def throwingValidator : Validator := fun _ => .error "boom"

/-- A state with a stale non-empty error on an otherwise conforming
field. -/
def staleErrorState : FormState := [("title", ⟨.str "ok", "stale", false⟩)]

/-- A two-field state with an old error on a and a violating empty b. -/
def twoFieldState : FormState :=
  [("a", ⟨.str "x", "old", false⟩), ("b", ⟨.str "", "", false⟩)]

/-- The snapshot of a one-field form whose title starts empty. -/
def titleSnapshot : FormState := [("title", ⟨.str "", "", false⟩)]

/-- The same form after the title was edited (a dirty state). -/
def titleEditedState : FormState := [("title", ⟨.str "Hi", "", false⟩)]

/-- A one-field snapshot used by the dirty-check claim. -/
def snapA : FormState := getInitial [("a", .str "x")] (.obj [])

/-- A changed one-field state covered by the snapshot. -/
def changedA : FormState := [("a", ⟨.str "y", "", false⟩)]

/-- A schema with two conditional rules, both requiring X, controlled by A
and by B. -/
def twoControllerSchema : JsonVal := .obj [("allOf", .arr [
  .obj [("if", .obj [("properties", .obj [("A", .obj [("const", .str "1")])])]),
        ("then", .obj [("required", .arr [.str "X"])])],
  .obj [("if", .obj [("properties", .obj [("B", .obj [("const", .str "2")])])]),
        ("then", .obj [("required", .arr [.str "X"])])]])]

/-- The initial state of the two-controller form: the first rule already
matches at construction. -/
def twoControllerState : FormState :=
  getInitial [("A", .str "1"), ("B", .str "0"), ("X", .str "")] twoControllerSchema

/-- The dependency map of the two-controller schema. -/
def twoControllerDeps : DepMap := [("A", ["X"]), ("B", ["X"])]

/-! Helper lemmas about the association-list primitives. -/
theorem lookupAL_any_false {β : Type} {l : List (String × β)} {k : String}
    (h : l.any (fun p => p.1 = k) = false) : lookupAL l k = none := by
  induction l with
  | nil => rfl
  | cons p t ih =>
    simp only [List.any_cons, Bool.or_eq_false_iff, decide_eq_false_iff_not] at h
    simp only [lookupAL, if_neg h.1]
    exact ih (by simpa using h.2)

theorem lookupAL_map_self {β : Type} {l : List (String × β)} {k : String} {v : β}
    (h : l.any (fun p => p.1 = k) = true) :
    lookupAL (l.map (fun p => if p.1 = k then (k, v) else p)) k = some v := by
  induction l with
  | nil => simp at h
  | cons p t ih =>
    by_cases hp : p.1 = k
    · simp [lookupAL, if_pos hp]
    · simp only [List.any_cons, Bool.or_eq_true, decide_eq_true_eq] at h
      simp only [List.map_cons, if_neg hp, lookupAL]
      exact ih (by simpa using h.resolve_left hp)

theorem lookupAL_append_last {β : Type} {l : List (String × β)} {k : String} {v : β}
    (h : l.any (fun p => p.1 = k) = false) :
    lookupAL (l ++ [(k, v)]) k = some v := by
  induction l with
  | nil => simp [lookupAL]
  | cons p t ih =>
    simp only [List.any_cons, Bool.or_eq_false_iff, decide_eq_false_iff_not] at h
    simp only [List.cons_append, lookupAL, if_neg h.1]
    exact ih (by simpa using h.2)

theorem lookupAL_setKeyAL_self {β : Type} (l : List (String × β)) (k : String) (v : β) :
    lookupAL (setKeyAL l k v) k = some v := by
  unfold setKeyAL
  by_cases h : l.any (fun p => p.1 = k)
  · rw [if_pos h]
    exact lookupAL_map_self h
  · rw [if_neg h]
    exact lookupAL_append_last (Bool.eq_false_iff.mpr h)

theorem lookupAL_map_other {β : Type} {l : List (String × β)} {k k' : String} {v : β}
    (hne : k' ≠ k) :
    lookupAL (l.map (fun p => if p.1 = k then (k, v) else p)) k' = lookupAL l k' := by
  induction l with
  | nil => rfl
  | cons p t ih =>
    by_cases hp : p.1 = k
    · simp only [List.map_cons, if_pos hp, lookupAL]
      rw [if_neg (fun hh : k = k' => hne hh.symm),
        if_neg (fun hh : p.1 = k' => hne (by rw [← hh, hp]))]
      exact ih
    · simp only [List.map_cons, if_neg hp, lookupAL]
      by_cases hp' : p.1 = k'
      · rw [if_pos hp', if_pos hp']
      · rw [if_neg hp', if_neg hp']
        exact ih

theorem lookupAL_append_other {β : Type} {l : List (String × β)} {k k' : String} {v : β}
    (hne : k' ≠ k) : lookupAL (l ++ [(k, v)]) k' = lookupAL l k' := by
  induction l with
  | nil => simp [lookupAL, if_neg (fun hh : k = k' => hne hh.symm)]
  | cons p t ih =>
    simp only [List.cons_append, lookupAL]
    by_cases hp : p.1 = k'
    · rw [if_pos hp, if_pos hp]
    · rw [if_neg hp, if_neg hp]
      exact ih

theorem lookupAL_setKeyAL_other {β : Type} (l : List (String × β)) (k k' : String) (v : β)
    (hne : k' ≠ k) : lookupAL (setKeyAL l k v) k' = lookupAL l k' := by
  unfold setKeyAL
  by_cases h : l.any (fun p => p.1 = k)
  · rw [if_pos h]
    exact lookupAL_map_other hne
  · rw [if_neg h]
    exact lookupAL_append_other hne

theorem lookupAL_none_not_mem {β : Type} {l : List (String × β)} {k : String}
    (h : lookupAL l k = none) : k ∉ l.map Prod.fst := by
  induction l with
  | nil => simp
  | cons p t ih =>
    simp only [lookupAL] at h
    by_cases hp : p.1 = k
    · rw [if_pos hp] at h
      simp at h
    · rw [if_neg hp] at h
      simp only [List.map_cons, List.mem_cons]
      rintro (rfl | hmem)
      · exact hp rfl
      · exact ih h hmem

theorem lookupAL_some_mem {β : Type} {l : List (String × β)} {k : String} {m : β}
    (h : lookupAL l k = some m) : (k, m) ∈ l := by
  induction l with
  | nil => simp [lookupAL] at h
  | cons p t ih =>
    simp only [lookupAL] at h
    by_cases hp : p.1 = k
    · rw [if_pos hp] at h
      have hpm : p = (k, m) := by
        cases p
        simp only [Option.some.injEq] at h
        simp_all
      simp [hpm]
    · rw [if_neg hp] at h
      exact List.mem_cons_of_mem _ (ih h)

/-! Lemmas about the substring search and the conditional-marker match. -/

theorem stripPrefixCL_append {p : List Char} :
    ∀ {s r : List Char}, stripPrefixCL p s = some r → s = p ++ r := by
  induction p with
  | nil =>
    intro s r h
    simp only [stripPrefixCL, Option.some.injEq] at h
    simp [h]
  | cons a ps ih =>
    intro s r h
    cases s with
    | nil => simp [stripPrefixCL] at h
    | cons b cs =>
      simp only [stripPrefixCL] at h
      by_cases hab : a = b
      · rw [if_pos hab] at h
        simp [← hab, ih h]
      · rw [if_neg hab] at h
        simp at h

theorem spanDigitsCL_append : ∀ s : List Char, (spanDigitsCL s).1 ++ (spanDigitsCL s).2 = s := by
  intro s
  induction s with
  | nil => rfl
  | cons c t ih =>
    simp only [spanDigitsCL]
    by_cases hc : c.isDigit
    · rw [if_pos hc]
      simp [ih]
    · rw [if_neg hc]
      rfl

theorem matchAllOfAt_spec {cs : List Char} {j : Nat} (h : matchAllOfAt cs = some j) :
    ∃ rest, stripPrefixCL "allOf/".data cs = some rest ∧
      prefixCL "/if".data (spanDigitsCL rest).2 = true := by
  unfold matchAllOfAt at h
  split at h
  next rest hs =>
    dsimp only at h
    split at h
    next hcond =>
      exact ⟨rest, hs, (Bool.and_eq_true _ _ |>.mp hcond).2⟩
    next hcond => simp at h
  next hs => simp at h

theorem prefixCL_hasSubstrCL {p s : List Char} (h : prefixCL p s = true) :
    hasSubstrCL p s = true := by
  cases s with
  | nil => exact h
  | cons c t => simp [hasSubstrCL, h]

theorem hasSubstrCL_append_left {p s : List Char} (h : hasSubstrCL p s = true) :
    ∀ xs : List Char, hasSubstrCL p (xs ++ s) = true := by
  intro xs
  induction xs with
  | nil => exact h
  | cons x t ih => simp [hasSubstrCL, ih]

theorem findAllOfIfIndex_hasSubstrCL :
    ∀ {cs : List Char} {i : Nat}, findAllOfIfIndex cs = some i →
      hasSubstrCL "/if".data cs = true := by
  intro cs
  induction cs with
  | nil => intro i h; simp [findAllOfIfIndex] at h
  | cons c t ih =>
    intro i h
    simp only [findAllOfIfIndex] at h
    cases hm : matchAllOfAt (c :: t) with
    | some j =>
      obtain ⟨rest, hs, hpre⟩ := matchAllOfAt_spec hm
      have hdecomp : c :: t = "allOf/".data ++ rest := stripPrefixCL_append hs
      have h1 : hasSubstrCL "/if".data (spanDigitsCL rest).2 = true :=
        prefixCL_hasSubstrCL hpre
      have h2 : hasSubstrCL "/if".data rest = true := by
        have := hasSubstrCL_append_left h1 (spanDigitsCL rest).1
        rwa [spanDigitsCL_append rest] at this
      rw [hdecomp]
      exact hasSubstrCL_append_left h2 _
    | none =>
      rw [hm] at h
      have := ih h
      simp [hasSubstrCL, this]

theorem findAllOfIfIndex_hasSubstr {s : String} {i : Nat}
    (h : findAllOfIfIndex s.data = some i) : hasSubstr s "/if" = true :=
  findAllOfIfIndex_hasSubstrCL h

theorem hasSubstr_if_ne_empty {s : String} (h : hasSubstr s "/if" = true) : s ≠ "" := by
  intro heq
  rw [heq] at h
  exact absurd h (by decide)

/-! Lemmas about the initial snapshot and the dirty check. -/

theorem getField_getInitial (init : List (String × JSValue)) (schema : JsonVal) (k : String) :
    getField (getInitial init schema) k =
      (lookupAL init k).map (fun val => ⟨val, "", (requiredKeys schema).contains k⟩) := by
  induction init with
  | nil => rfl
  | cons p t ih =>
    simp only [getInitial, List.map_cons, getField, lookupAL]
    by_cases hp : p.1 = k
    · rw [if_pos hp, if_pos hp]
      simp [hp]
    · rw [if_neg hp, if_neg hp]
      exact ih

theorem isFormDirtyAux_covered (initialState : FormState) :
    ∀ current : List (String × FieldState),
      (∀ p ∈ current, (getField initialState p.1).isSome = true) →
      isFormDirtyAux initialState current =
        .ok (current.any (fun p =>
          !((getField initialState p.1).map (fun fs => fs.value) == some p.2.value))) := by
  intro current
  induction current with
  | nil => intro _; rfl
  | cons p t ih =>
    intro hcov
    have hp := hcov p (List.mem_cons_self p t)
    cases hi : getField initialState p.1 with
    | none => rw [hi] at hp; simp at hp
    | some ifs =>
      simp only [isFormDirtyAux, hi, List.any_cons, Option.map_some]
      by_cases hv : p.2.value = ifs.value
      · rw [if_neg (by simp [hv])]
        rw [ih (fun q hq => hcov q (List.mem_cons_of_mem _ hq))]
        congr 1
        simp [hv]
      · rw [if_pos hv]
        have : (some ifs.value == some p.2.value) = false := by
          simp only [beq_eq_false_iff_ne, ne_eq, Option.some.injEq]
          exact fun hh => hv hh.symm
        simp [this]

/-! Lemmas about key uniqueness in resolved error records, the identity
rebuild inside validateForm, and the successful runs of the setErrors
helper. -/

theorem map_fst_update {β : Type} (l : List (String × β)) (k : String) (v : β) :
    (l.map (fun p => if p.1 = k then (k, v) else p)).map Prod.fst = l.map Prod.fst := by
  induction l with
  | nil => rfl
  | cons p t ih =>
    simp only [List.map_cons, List.cons.injEq]
    refine ⟨?_, ih⟩
    by_cases hp : p.1 = k
    · rw [if_pos hp]
      exact hp.symm
    · rw [if_neg hp]

theorem keys_setKeyAL {β : Type} (l : List (String × β)) (k : String) (v : β) :
    (setKeyAL l k v).map Prod.fst =
      if l.any (fun p => p.1 = k) then l.map Prod.fst else l.map Prod.fst ++ [k] := by
  unfold setKeyAL
  by_cases h : l.any (fun p => p.1 = k)
  · rw [if_pos h, if_pos h]
    exact map_fst_update l k v
  · rw [if_neg h, if_neg h]
    simp

theorem keys_setKeyAL_nodup {β : Type} {l : List (String × β)} {k : String} {v : β}
    (h : (l.map Prod.fst).Nodup) : ((setKeyAL l k v).map Prod.fst).Nodup := by
  rw [keys_setKeyAL]
  by_cases ha : l.any (fun p => p.1 = k)
  · rw [if_pos ha]
    exact h
  · rw [if_neg ha]
    have hk : k ∉ l.map Prod.fst := by
      intro hmem
      obtain ⟨p, hp, hfst⟩ := List.mem_map.mp hmem
      have : l.any (fun p => p.1 = k) = true :=
        List.any_eq_true.mpr ⟨p, hp, by simp [hfst]⟩
      exact ha this
    simp [List.nodup_append, h, hk]

theorem getErrorsAux_keys_nodup (u : MsgTable) (schemaOpt : Option JsonVal) :
    ∀ (es : List ErrorObject) (st : List (String × String) × List String),
      (st.1.map Prod.fst).Nodup →
      (((es.foldl (getErrorsStep u schemaOpt) st).1.map Prod.fst)).Nodup := by
  intro es
  induction es with
  | nil => intro st h; exact h
  | cons e t ih =>
    intro st h
    simp only [List.foldl_cons]
    apply ih
    unfold getErrorsStep
    cases resolvedFieldName schemaOpt e with
    | none => exact h
    | some f =>
      dsimp only
      by_cases hc : st.2.contains f && hasSubstr e.schemaPath "/if"
      · rw [if_pos hc]
        exact h
      · rw [if_neg hc]
        exact keys_setKeyAL_nodup h

theorem getErrors_keys_nodup (es : List ErrorObject) (u : MsgTable)
    (schemaOpt : Option JsonVal) : ((getErrors es u schemaOpt).map Prod.fst).Nodup :=
  getErrorsAux_keys_nodup u schemaOpt es ([], []) (by simp)

theorem foldl_setKeyAL_fresh {β : Type} :
    ∀ (E acc : List (String × β)),
      ((E.map Prod.fst).Nodup) →
      (∀ k ∈ E.map Prod.fst, acc.any (fun p => p.1 = k) = false) →
      E.foldl (fun a p => setKeyAL a p.1 p.2) acc = acc ++ E := by
  intro E
  induction E with
  | nil => intro acc _ _; simp
  | cons q t ih =>
    intro acc hnd hfresh
    have hq : acc.any (fun p => p.1 = q.1) = false :=
      hfresh q.1 (by simp)
    simp only [List.foldl_cons]
    have hset : setKeyAL acc q.1 q.2 = acc ++ [q] := by
      unfold setKeyAL
      rw [if_neg (by simp [hq])]
    rw [hset]
    have hnd' : (t.map Prod.fst).Nodup := by
      simp only [List.map_cons, List.nodup_cons] at hnd
      exact hnd.2
    have hq1 : q.1 ∉ t.map Prod.fst := by
      simp only [List.map_cons, List.nodup_cons] at hnd
      exact hnd.1
    have hfresh' : ∀ k ∈ t.map Prod.fst, (acc ++ [q]).any (fun p => p.1 = k) = false := by
      intro k hk
      rw [List.any_append]
      have h1 : acc.any (fun p => p.1 = k) = false :=
        hfresh k (List.mem_cons_of_mem _ hk)
      have h2 : [q].any (fun p => p.1 = k) = false := by
        simp only [List.any_cons, List.any_nil, Bool.or_false, decide_eq_false_iff_not]
        intro hh
        exact hq1 (hh ▸ hk)
      rw [h1, h2]
      rfl
    rw [ih (acc ++ [q]) hnd' hfresh']
    simp

theorem rebuildErrors_eq {E : List (String × String)} (h : (E.map Prod.fst).Nodup) :
    rebuildErrors E = E := by
  unfold rebuildErrors
  have := foldl_setKeyAL_fresh E [] h (fun k _ => rfl)
  simpa using this

theorem setErrorsImplAux_ok (state : FormState) :
    ∀ (E : List (String × String)) (acc : FormState),
      (∀ p ∈ E, (getField state p.1).isSome = true) →
      setErrorsImplAux state acc E = .ok (applyErrors state acc E) := by
  intro E
  induction E with
  | nil => intro acc _; rfl
  | cons q t ih =>
    intro acc hcov
    obtain ⟨k, m⟩ := q
    have hk := hcov (k, m) (by simp)
    cases hg : getField state k with
    | none => rw [hg] at hk; simp at hk
    | some fs =>
      simp only [setErrorsImplAux, hg, applyErrors, Option.getD_some]
      exact ih _ (fun p hp => hcov p (List.mem_cons_of_mem _ hp))

theorem applyErrors_not_mem (state : FormState) :
    ∀ (E : List (String × String)) (acc : FormState) (k : String),
      k ∉ E.map Prod.fst →
      getField (applyErrors state acc E) k = getField acc k := by
  intro E
  induction E with
  | nil => intro acc k _; rfl
  | cons q t ih =>
    intro acc k hk
    obtain ⟨k0, m0⟩ := q
    simp only [List.map_cons, List.mem_cons, not_or] at hk
    simp only [applyErrors]
    rw [ih _ k hk.2]
    exact lookupAL_setKeyAL_other _ _ _ _ hk.1

theorem applyErrors_mem (state : FormState) :
    ∀ (E : List (String × String)) (acc : FormState) (k : String) (m : String)
      (fs : FieldState),
      (E.map Prod.fst).Nodup → (k, m) ∈ E → getField state k = some fs →
      getField (applyErrors state acc E) k = some ⟨getValue fs.value, m, false⟩ := by
  intro E
  induction E with
  | nil => intro acc k m fs _ hmem _; simp at hmem
  | cons q t ih =>
    intro acc k m fs hnd hmem hfs
    obtain ⟨k0, m0⟩ := q
    simp only [List.map_cons, List.nodup_cons] at hnd
    rcases List.mem_cons.mp hmem with heq | hmem'
    · injection heq with h1 h2
      subst h1
      subst h2
      simp only [applyErrors]
      rw [applyErrors_not_mem state t _ k hnd.1]
      simp only [hfs, Option.getD_some]
      exact lookupAL_setKeyAL_self _ _ _
    · simp only [applyErrors]
      exact ih _ k m fs hnd.2 hmem' hfs

/-! Lemmas about the dynamic required-flag recomputation. -/

theorem udrfStep_preserve (F : String) (v : JSValue) (schema : JsonVal)
    (st : FormState) (c D : String) (hne : D ≠ c) :
    getField (udrfStep F v schema st c) D = getField st D := by
  unfold udrfStep
  cases getField st c with
  | some fs => exact lookupAL_setKeyAL_other _ _ _ _ hne
  | none => exact lookupAL_setKeyAL_other _ _ _ _ hne

theorem udrf_foldl_preserve (F : String) (v : JSValue) (schema : JsonVal) (D : String) :
    ∀ (l : List String) (st : FormState), D ∉ l →
      getField (l.foldl (udrfStep F v schema) st) D = getField st D := by
  intro l
  induction l with
  | nil => intro st _; rfl
  | cons c t ih =>
    intro st hD
    simp only [List.mem_cons, not_or] at hD
    simp only [List.foldl_cons]
    rw [ih _ hD.2]
    exact udrfStep_preserve F v schema st c D hD.1

theorem udrf_foldl_mem (F : String) (v : JSValue) (schema : JsonVal) (D : String) :
    ∀ (l : List String) (st : FormState), D ∈ l →
      (getField (l.foldl (udrfStep F v schema) st) D).map (fun fs => fs.isRequired) =
        some (evaluateFieldDependency D F v schema) := by
  intro l
  induction l with
  | nil => intro st hD; simp at hD
  | cons c t ih =>
    intro st hD
    simp only [List.foldl_cons]
    by_cases hDt : D ∈ t
    · exact ih _ hDt
    · have hDc : D = c := by
        rcases List.mem_cons.mp hD with h | h
        · exact h
        · exact absurd h hDt
      subst hDc
      rw [udrf_foldl_preserve F v schema D t _ hDt]
      unfold udrfStep
      cases hg : getField st D with
      | some fs =>
        show (getField (setKey st D
            { value := fs.value, error := fs.error,
              isRequired := evaluateFieldDependency D F v schema }) D).map
            (fun fs => fs.isRequired) = some (evaluateFieldDependency D F v schema)
        unfold getField setKey
        rw [lookupAL_setKeyAL_self]
        rfl
      | none =>
        show (getField (setKey st D
            { value := JSValue.undef, error := "",
              isRequired := evaluateFieldDependency D F v schema }) D).map
            (fun fs => fs.isRequired) = some (evaluateFieldDependency D F v schema)
        unfold getField setKey
        rw [lookupAL_setKeyAL_self]
        rfl

theorem constMatches_iff (c : JsonVal) (F : String) (v : JSValue) :
    (match ifPropConst c F with
     | some cv => jsStrictEq cv v
     | none => false) = true ↔ constMatches c F v := by
  cases hcv : ifPropConst c F with
  | none => simp [constMatches, hcv]
  | some cv => simp [constMatches, hcv]

theorem requiredIncludes_iff (c : JsonVal) (D : String) :
    requiredIncludes c D = true ↔ D ∈ thenRequiredNames c := by
  unfold requiredIncludes thenRequiredNames
  cases hthen : (jsIndex c "then").bind (fun t => jsIndex t "required") with
  | none => simp
  | some rv =>
    cases rv with
    | arr xs =>
      simp only [List.any_eq_true, List.mem_filterMap]
      constructor
      · rintro ⟨x, hx, he⟩
        cases x with
        | str s =>
          simp only [decide_eq_true_eq] at he
          exact ⟨JsonVal.str s, hx, by simp [he]⟩
        | num n => simp at he
        | boolean b => simp at he
        | null => simp at he
        | arr a => simp at he
        | obj o => simp at he
      · rintro ⟨x, hx, he⟩
        cases x with
        | str s =>
          simp only [Option.some.injEq] at he
          exact ⟨JsonVal.str s, hx, by simp [he]⟩
        | num n => simp at he
        | boolean b => simp at he
        | null => simp at he
        | arr a => simp at he
        | obj o => simp at he
    | str s => simp
    | num n => simp
    | boolean b => simp
    | null => simp
    | obj o => simp

theorem evaluateFieldDependency_iff (D F : String) (v : JSValue) (schema : JsonVal) :
    evaluateFieldDependency D F v schema = true ↔
      ∃ c ∈ allOfList schema, constMatches c F v ∧ D ∈ thenRequiredNames c := by
  unfold evaluateFieldDependency
  cases hA : jsIndex schema "allOf" with
  | none => simp [allOfList, hA]
  | some j =>
    cases j with
    | arr conds =>
      simp only [allOfList, hA, List.any_eq_true, Bool.and_eq_true]
      constructor
      · rintro ⟨c, hc, h1, h2⟩
        exact ⟨c, hc, (constMatches_iff c F v).mp h1, (requiredIncludes_iff c D).mp h2⟩
      · rintro ⟨c, hc, h1, h2⟩
        exact ⟨c, hc, (constMatches_iff c F v).mpr h1, (requiredIncludes_iff c D).mpr h2⟩
    | str s => simp [allOfList, hA]
    | num n => simp [allOfList, hA]
    | boolean b => simp [allOfList, hA]
    | null => simp [allOfList, hA]
    | obj o => simp [allOfList, hA]

/-! Claim theorems. -/

/-- C5: for every error record, the rendered message comes from the default
template table merged with caller-supplied overrides (overrides win for a
shared keyword) applied to the params; a minLength error with limit 1
renders the generic required-field message; with no matching template the
raw Validator message is used, and failing that the unknown-error
placeholder. -/
theorem C5_message_rendering (e : ErrorObject) (u : MsgTable) :
    (∀ f, lookupMsgFn u e.keyword = some f → getErrorMessage e u = f e.params) ∧
    (lookupMsgFn u e.keyword = none →
      ∀ g, defaultAJVMessages e.keyword = some g → getErrorMessage e u = g e.params) ∧
    (lookupMsgFn u e.keyword = none → e.keyword = "minLength" → e.params.limit = some 1 →
      getErrorMessage e u = "This field is required.") ∧
    (lookupMsgFn u e.keyword = none → defaultAJVMessages e.keyword = none →
      (∀ m, e.message = some m → m ≠ "" → getErrorMessage e u = m) ∧
      (e.message = none → getErrorMessage e u = "Unknown validation error")) := by
  refine ⟨?_, ?_, ?_, ?_⟩
  · intro f hf
    simp only [getErrorMessage, hf]
  · intro h0 g hg
    simp only [getErrorMessage, h0, hg]
  · intro h0 hkw hlim
    rw [hkw] at h0
    have hd : defaultAJVMessages "minLength" =
        some (fun p => if p.limit = some 1 then "This field is required."
          else "Should be at least " ++ limitToStr p.limit ++ " characters long.") := rfl
    simp only [getErrorMessage, hkw, h0, hd, hlim]
    simp
  · intro h0 h1
    constructor
    · intro m hm hne
      simp only [getErrorMessage, h0, h1, hm, if_neg hne]
    · intro hnone
      simp only [getErrorMessage, h0, h1, hnone]

theorem C5_message_rendering_witness :
    getErrorMessage minLenOneError [] = "This field is required." :=
  (C5_message_rendering minLenOneError []).2.2.1 rfl rfl rfl

/-- C4: during one resolution pass, a conditional-if error (schemaPath
carries the conditional marker) that resolves to a field already holding a
message is suppressed and does not overwrite the existing message: the pass
over the list with the error inserted equals the pass without it. -/
theorem C4_dedup_suppression (u : MsgTable) (schemaOpt : Option JsonVal)
    (es1 es2 : List ErrorObject) (e : ErrorObject) (f : String) (i : Nat)
    (h1 : resolvedFieldName schemaOpt e = some f)
    (h2 : findAllOfIfIndex e.schemaPath.data = some i)
    (h3 : (getErrorsAux u schemaOpt es1).2.contains f = true) :
    getErrors (es1 ++ e :: es2) u schemaOpt = getErrors (es1 ++ es2) u schemaOpt := by
  have hsub : hasSubstr e.schemaPath "/if" = true := findAllOfIfIndex_hasSubstr h2
  unfold getErrorsAux at h3
  unfold getErrors getErrorsAux
  rw [List.foldl_append, List.foldl_append, List.foldl_cons]
  have hstep :
      getErrorsStep u schemaOpt (List.foldl (getErrorsStep u schemaOpt) ([], []) es1) e =
        List.foldl (getErrorsStep u schemaOpt) ([], []) es1 := by
    simp only [getErrorsStep, h1]
    rw [if_pos (show _ = true by rw [h3, hsub]; rfl)]
  rw [hstep]

theorem C4_dedup_suppression_witness :
    getErrors ([directLocationError] ++ ifError :: []) [] (some condSchema) =
      getErrors ([directLocationError] ++ []) [] (some condSchema) :=
  C4_dedup_suppression [] (some condSchema) [directLocationError] [] ifError "location" 0
    (by decide) (by decide) (by decide)

/-- C10: the dirty accessor is total and equal to the value-difference check
on states whose fields all exist in the initial snapshot, and a set patch
that introduces a field absent at initialization makes the missing-snapshot
error branch reachable. -/
theorem C10_dirty_partiality :
    (∀ current initialState : FormState,
      (∀ p ∈ current, (getField initialState p.1).isSome = true) →
      isFormDirty current initialState = .ok (dirtySpec current initialState)) ∧
    isFormDirty (setFormState snapA [("b", .str "y")]) snapA =
      .error "TypeError: cannot read properties of undefined" := by
  constructor
  · intro current initialState hcov
    unfold isFormDirty dirtySpec
    exact isFormDirtyAux_covered initialState current hcov
  · rfl

theorem C10_dirty_partiality_witness : isFormDirty changedA snapA = Except.ok true := by
  have h := C10_dirty_partiality.1 changedA snapA (by decide)
  exact h.trans rfl

/-- C7: after any sequence of set, blur, validate and setErrors operations,
reset restores the form state to the initial snapshot, whose every field
holds its initial value and an empty error. -/
theorem C7_reset_restores (v : Validator) (u : MsgTable) (init : List (String × JSValue))
    (schema : JsonVal) (ops : List FormOp) (k : String) (val : JSValue)
    (h : lookupAL init k = some val) :
    resetForm (runOps v u (getInitial init schema) (getInitial init schema) ops)
        (getInitial init schema) = getInitial init schema ∧
    getField (getInitial init schema) k =
      some ⟨val, "", (requiredKeys schema).contains k⟩ := by
  constructor
  · rfl
  · rw [getField_getInitial, h]
    rfl

theorem C7_reset_restores_witness :
    resetForm (runOps acceptingValidator []
        (getInitial [("title", JSValue.str "Hello")] (.obj []))
        (getInitial [("title", JSValue.str "Hello")] (.obj []))
        [FormOp.setOp [("title", JSValue.str "Changed")], FormOp.validateOp,
          FormOp.blurOp "title"])
      (getInitial [("title", JSValue.str "Hello")] (.obj [])) =
      getInitial [("title", JSValue.str "Hello")] (.obj []) ∧
    getField (getInitial [("title", JSValue.str "Hello")] (.obj [])) "title" =
      some ⟨JSValue.str "Hello", "", (requiredKeys (.obj [])).contains "title"⟩ :=
  C7_reset_restores acceptingValidator [] [("title", JSValue.str "Hello")] (.obj [])
    [FormOp.setOp [("title", JSValue.str "Changed")], FormOp.validateOp,
      FormOp.blurOp "title"] "title" (JSValue.str "Hello") (by decide)

/-- C6 counterexample: onBlur on a field name absent from the form state
raises a TypeError that escapes to the caller, contradicting the claim that
no exception ever escapes the public operations. -/
theorem C6_cex :
    handleBlur acceptingValidator [] titleSnapshot titleSnapshot "missing" =
      Except.error "TypeError: cannot read properties of undefined" := rfl

/-- C6 as amended: validate never lets an exception escape — any exception
raised by its body (data construction, the Validator call, or the error
write-back) is converted to the invalid result with null data and an
unchanged state — while onBlur and setErrors can throw for a field name
absent from the form state. -/
theorem C6_validate_catches (v : Validator) (u : MsgTable) (s : FormState) (msg : String)
    (h : validateFormBody v u s = .error msg) :
    validateForm v u s = (s, ⟨false, none⟩) := by
  unfold validateForm
  rw [h]

theorem C6_validate_catches_witness :
    validateForm throwingValidator [] titleSnapshot = (titleSnapshot, ⟨false, none⟩) :=
  C6_validate_catches throwingValidator [] titleSnapshot "boom" rfl

/-- C1 counterexample: the Validator accepts the built data object, yet
validate returns the invalid result with null data and leaves the stale
error in place, contradicting the claimed clearing and valid result. -/
theorem C1_cex :
    (validateForm acceptingValidator [] staleErrorState).2 = ⟨false, none⟩ ∧
    (getField (validateForm acceptingValidator [] staleErrorState).1 "title").map
      (fun fs => fs.error) = some "stale" ∧
    acceptingValidator (buildData staleErrorState) = .ok (true, none) :=
  ⟨rfl, rfl, rfl⟩

/-- C1 as amended: when the Validator passes the built data object,
validate leaves the state unchanged and returns the valid result with the
data exactly when no field currently holds a non-empty error; when some
field still holds one it returns the invalid result with null data. -/
theorem C1_validate_success (v : Validator) (u : MsgTable) (s : FormState)
    (eo : Option (List ErrorObject)) (h : v (buildData s) = .ok (true, eo)) :
    (isFormValid s = true → validateForm v u s = (s, ⟨true, some (buildData s)⟩)) ∧
    (isFormValid s = false → validateForm v u s = (s, ⟨false, none⟩)) := by
  constructor
  · intro hval
    simp [validateForm, validateFormBody, h, hval]
  · intro hval
    simp [validateForm, validateFormBody, h, hval]

theorem C1_validate_success_witness :
    validateForm acceptingValidator [] titleSnapshot =
      (titleSnapshot, ⟨true, some (buildData titleSnapshot)⟩) :=
  (C1_validate_success acceptingValidator [] titleSnapshot none rfl).1 rfl

/-- C2 counterexample: the Validator rejects the built data object, yet the
field not named by the resolution keeps its previous non-empty error instead
of being cleared, contradicting the claimed overwrite of every field. -/
theorem C2_cex :
    (validateForm rejectingValidatorB [] twoFieldState).2 = ⟨false, none⟩ ∧
    (getField (validateForm rejectingValidatorB [] twoFieldState).1 "a").map
      (fun fs => fs.error) = some "old" ∧
    rejectingValidatorB (buildData twoFieldState) = .ok (false, some [minLenErrB]) :=
  ⟨rfl, rfl, rfl⟩

/-- C2 as amended: on a reported Validator failure whose resolved fields all
exist in the state, validate returns the invalid result with null data;
fields named in the resolution receive their resolved message (with their
value coerced through getValue and no required flag), and fields not named
keep their previous entry unchanged. -/
theorem C2_validate_failure (v : Validator) (u : MsgTable) (s : FormState)
    (errs : List ErrorObject)
    (h : v (buildData s) = .ok (false, some errs))
    (hok : ∀ p ∈ getErrors errs u none, (getField s p.1).isSome = true) :
    (validateForm v u s).2 = ⟨false, none⟩ ∧
    (∀ k, lookupAL (getErrors errs u none) k = none →
      getField (validateForm v u s).1 k = getField s k) ∧
    (∀ k m fs, lookupAL (getErrors errs u none) k = some m → getField s k = some fs →
      getField (validateForm v u s).1 k = some ⟨getValue fs.value, m, false⟩) := by
  have hnd := getErrors_keys_nodup errs u none
  have hrebuild : rebuildErrors (getErrors errs u none) = getErrors errs u none :=
    rebuildErrors_eq hnd
  have himpl : setErrorsImpl s (getErrors errs u none) =
      .ok (applyErrors s s (getErrors errs u none)) := by
    unfold setErrorsImpl
    exact setErrorsImplAux_ok s _ s hok
  have hmain : validateForm v u s =
      (applyErrors s s (getErrors errs u none), ⟨false, none⟩) := by
    simp [validateForm, validateFormBody, h, hrebuild, himpl]
  refine ⟨by rw [hmain], ?_, ?_⟩
  · intro k hk
    rw [hmain]
    exact applyErrors_not_mem s _ s k (lookupAL_none_not_mem hk)
  · intro k m fs hk hfs
    rw [hmain]
    exact applyErrors_mem s _ s k m fs hnd (lookupAL_some_mem hk) hfs

theorem C2_validate_failure_witness :
    getField (validateForm rejectingValidatorB [] twoFieldState).1 "b" =
      some ⟨JSValue.str "", "Should be at least 3 characters long.", false⟩ := by
  have h := (C2_validate_failure rejectingValidatorB [] twoFieldState [minLenErrB] rfl
    (by decide)).2.2 "b" "Should be at least 3 characters long." ⟨JSValue.str "", "", false⟩
    (by decide) (by decide)
  exact h

/-- C9 counterexample: the single-key validation of the blurred field does
report a violation and the resolver maps a non-empty message to the field,
yet blur writes the empty string because the form is not dirty,
contradicting the claimed write of the resolved message. -/
theorem C9_cex :
    validateField rejectingValidatorTitle [] titleSnapshot titleSnapshot "title" =
      .ok [("title", ⟨JSValue.str "", "", false⟩)] ∧
    rejectingValidatorTitle [("title", JSValue.str "")] = .ok (false, some [minLenErrTitle]) ∧
    lookupAL (getErrors [minLenErrTitle] [] none) "title" =
      some "Should be at least 3 characters long." :=
  ⟨rfl, rfl, rfl⟩

/-- C9 as amended: blur validates the single-key data object of the named
field and writes into the error of that one field the resolved message when the
form is dirty (the empty string when there is no violation), and always the
empty string when the form is not dirty; the value and required flag of the
field and every other field are untouched. -/
theorem C9_blur_scoped (v : Validator) (u : MsgTable) (snap s : FormState) (f : String)
    (fs : FieldState) (r : Bool × Option (List ErrorObject)) (dirty : Bool)
    (h1 : getField s f = some fs)
    (h2 : v [(f, fs.value)] = .ok r)
    (h3 : isFormDirty s snap = .ok dirty) :
    validateField v u snap s f = .ok (setKey s f
      { fs with error := if dirty then
          (lookupAL (if r.1 then [] else getErrors (r.2.getD []) u none) f).getD ""
        else "" }) ∧
    (∀ X : FieldState, getField (setKey s f X) f = some X) ∧
    (∀ (X : FieldState) (k : String), k ≠ f → getField (setKey s f X) k = getField s k) := by
  refine ⟨?_, ?_, ?_⟩
  · simp [validateField, h1, h2, h3]
  · intro X
    unfold getField setKey
    exact lookupAL_setKeyAL_self s f X
  · intro X k hk
    unfold getField setKey
    exact lookupAL_setKeyAL_other s f k X hk

theorem C9_blur_scoped_witness :
    validateField rejectingValidatorTitle [] titleSnapshot titleEditedState "title" =
      .ok [("title", ⟨JSValue.str "Hi", "Should be at least 3 characters long.", false⟩)] := by
  have h := (C9_blur_scoped rejectingValidatorTitle [] titleSnapshot titleEditedState "title"
    ⟨JSValue.str "Hi", "", false⟩ (false, some [minLenErrTitle]) true rfl rfl rfl).1
  exact h.trans (by rfl)

/-- C8 counterexample: at the reachable initial state of the two-controller
form, a conditional rule currently matches and lists X in its then-required
list, yet the isRequired flag of X is false, contradicting the claimed
iff-invariant. -/
theorem C8_cex :
    someConditionalRequires twoControllerSchema twoControllerState "X" = true ∧
    (getField twoControllerState "X").map (fun fs => fs.isRequired) = some false :=
  ⟨rfl, rfl⟩

/-- C8 as amended: after a set patch on a controlling field F, every
dependent D listed for F in the dependency map has its isRequired flag equal
to the local recomputation, which is true exactly when some conditional
clause has an if-properties constant for F strictly equal to the coerced new
value and lists D in its then-required list; clauses controlled by other
fields are not consulted. -/
theorem C8_set_recomputes (st : FormState) (deps : DepMap) (schema : JsonVal)
    (F : String) (raw : JSValue) (D : String) (hD : D ∈ depsOf deps F) :
    (getField (getFormState st [(F, raw)] deps schema) D).map (fun fs => fs.isRequired) =
      some (evaluateFieldDependency D F (getValue raw) schema) ∧
    ((getField (getFormState st [(F, raw)] deps schema) D).map (fun fs => fs.isRequired) =
        some true ↔
      ∃ c ∈ allOfList schema, constMatches c F (getValue raw) ∧ D ∈ thenRequiredNames c) := by
  have hmain : (getField (getFormState st [(F, raw)] deps schema) D).map
      (fun fs => fs.isRequired) = some (evaluateFieldDependency D F (getValue raw) schema) := by
    show (getField ((depsOf deps F).foldl (udrfStep F (getValue raw) schema)
        (updateFieldValue st F (getValue raw))) D).map (fun fs => fs.isRequired) = _
    exact udrf_foldl_mem F (getValue raw) schema D (depsOf deps F) _ hD
  refine ⟨hmain, ?_⟩
  rw [hmain, ← evaluateFieldDependency_iff D F (getValue raw) schema]
  simp

theorem C8_set_recomputes_witness :
    (getField (getFormState twoControllerState [("B", JSValue.str "2")] twoControllerDeps
        twoControllerSchema) "X").map (fun fs => fs.isRequired) =
      some (evaluateFieldDependency "X" "B" (getValue (JSValue.str "2")) twoControllerSchema) ∧
    ((getField (getFormState twoControllerState [("B", JSValue.str "2")] twoControllerDeps
        twoControllerSchema) "X").map (fun fs => fs.isRequired) = some true ↔
      ∃ c ∈ allOfList twoControllerSchema,
        constMatches c "B" (getValue (JSValue.str "2")) ∧ "X" ∈ thenRequiredNames c) :=
  C8_set_recomputes twoControllerState twoControllerDeps twoControllerSchema "B"
    (JSValue.str "2") "X" (by decide)

theorem resolveConditionalField_some (schemaPath : String) (schema : JsonVal) (i : Nat)
    (hne : schemaPath ≠ "") (ht : jsTruthy schema = true)
    (htr : traverseOk schema (splitSlash (stripHashPrefix schemaPath)) = true)
    (hfi : findAllOfIfIndex schemaPath.data = some i) :
    resolveConditionalField schemaPath schema = claimThenField schema i := by
  unfold resolveConditionalField
  rw [if_neg (by simp [hne, ht]), if_neg (by simp [htr]), hfi]
  rfl

theorem resolveConditionalField_none (schemaPath : String) (schema : JsonVal)
    (hne : schemaPath ≠ "") (ht : jsTruthy schema = true)
    (htr : traverseOk schema (splitSlash (stripHashPrefix schemaPath)) = true)
    (hfi : findAllOfIfIndex schemaPath.data = none) :
    resolveConditionalField schemaPath schema = none := by
  unfold resolveConditionalField
  rw [if_neg (by simp [hne, ht]), if_neg (by simp [htr]), hfi]

theorem resolveConditionalField_traverseFail (schemaPath : String) (schema : JsonVal)
    (hne : schemaPath ≠ "") (ht : jsTruthy schema = true)
    (htr : traverseOk schema (splitSlash (stripHashPrefix schemaPath)) = false) :
    resolveConditionalField schemaPath schema = none := by
  unfold resolveConditionalField
  rw [if_neg (by simp [hne, ht]), if_pos (by simp [htr])]

/-- C3 counterexample: the schemaPath of the error carries the conditional
marker and the indexed clause has a non-empty required list, so the claim
resolves the error to the field location; the code drops the error because
the path fails to traverse the schema. -/
theorem C3_cex :
    resolvedFieldName (some condSchema) badTraversalError = none ∧
    claimResolvedField condSchema badTraversalError = some "location" :=
  ⟨rfl, rfl⟩

/-- C3 as amended: for an error whose instancePath is empty or keeps a
non-empty remainder after the leading separator, the resolved field is the
path remainder when the instancePath is non-empty; otherwise, when the
schema is truthy, every segment of the schemaPath traverses to a truthy
node, and the schemaPath carries the conditional marker, it is the first
entry of the then-required list of the indexed clause, else the first declared
key of its then-properties (an empty resolved name is dropped); otherwise
the error contributes no field. -/
theorem C3_field_resolution (schema : JsonVal) (e : ErrorObject)
    (h : e.instancePath = "" ∨ strDrop1 e.instancePath ≠ "") :
    resolvedFieldName (some schema) e = amendedResolvedField schema e := by
  by_cases h0 : e.instancePath = ""
  · have hf0 : getFieldNameFromPath e.instancePath = none := by
      unfold getFieldNameFromPath
      rw [if_pos h0]
    unfold amendedResolvedField
    rw [if_neg (fun hh => hh h0)]
    by_cases hc : (jsTruthy schema &&
        traverseOk schema (splitSlash (stripHashPrefix e.schemaPath))) = true
    · rw [if_pos hc]
      rw [Bool.and_eq_true] at hc
      obtain ⟨ht, htr⟩ := hc
      by_cases hs : hasSubstr e.schemaPath "/if" = true
      · have hne : e.schemaPath ≠ "" := hasSubstr_if_ne_empty hs
        cases hfi : findAllOfIfIndex e.schemaPath.data with
        | some i =>
          have hr : resolveConditionalField e.schemaPath schema = claimThenField schema i :=
            resolveConditionalField_some e.schemaPath schema i hne ht htr hfi
          cases hcf : claimThenField schema i with
          | none =>
            simp [resolvedFieldName, hf0, jsNameFalsy, optSchemaTruthy, hs, ht, hr, hcf,
              filterEmptyName, Option.getD_some]
          | some name =>
            by_cases hn : name = ""
            · simp [resolvedFieldName, hf0, jsNameFalsy, optSchemaTruthy, hs, ht, hr, hcf,
                filterEmptyName, hn, Option.getD_some]
            · simp [resolvedFieldName, hf0, jsNameFalsy, optSchemaTruthy, hs, ht, hr, hcf,
                filterEmptyName, hn, Option.getD_some]
        | none =>
          have hr : resolveConditionalField e.schemaPath schema = none :=
            resolveConditionalField_none e.schemaPath schema hne ht htr hfi
          simp [resolvedFieldName, hf0, jsNameFalsy, optSchemaTruthy, hs, ht, hr,
            Option.getD_some]
      · have hs' : hasSubstr e.schemaPath "/if" = false := Bool.eq_false_iff.mpr hs
        cases hfi : findAllOfIfIndex e.schemaPath.data with
        | some i => exact absurd (findAllOfIfIndex_hasSubstr hfi) (by simp [hs'])
        | none =>
          simp [resolvedFieldName, hf0, jsNameFalsy, optSchemaTruthy, hs', Option.getD_some]
    · rw [if_neg hc]
      cases hht : jsTruthy schema with
      | false =>
        simp [resolvedFieldName, hf0, jsNameFalsy, optSchemaTruthy, hht, Option.getD_some]
      | true =>
        have htr' : traverseOk schema (splitSlash (stripHashPrefix e.schemaPath)) = false := by
          cases htt : traverseOk schema (splitSlash (stripHashPrefix e.schemaPath)) with
          | true => exact absurd (by rw [hht, htt]; rfl) hc
          | false => rfl
        by_cases hs : hasSubstr e.schemaPath "/if" = true
        · have hne : e.schemaPath ≠ "" := hasSubstr_if_ne_empty hs
          have hr : resolveConditionalField e.schemaPath schema = none :=
            resolveConditionalField_traverseFail e.schemaPath schema hne hht htr'
          simp [resolvedFieldName, hf0, jsNameFalsy, optSchemaTruthy, hs, hht, hr,
            Option.getD_some]
        · have hs' : hasSubstr e.schemaPath "/if" = false := Bool.eq_false_iff.mpr hs
          simp [resolvedFieldName, hf0, jsNameFalsy, optSchemaTruthy, hs', Option.getD_some]
  · have hd : strDrop1 e.instancePath ≠ "" := h.resolve_left h0
    have hf0 : getFieldNameFromPath e.instancePath = some (strDrop1 e.instancePath) := by
      unfold getFieldNameFromPath
      rw [if_neg h0]
    unfold amendedResolvedField
    rw [if_pos h0]
    simp [resolvedFieldName, hf0, jsNameFalsy, hd]

theorem C3_field_resolution_witness :
    resolvedFieldName (some condSchema) ifError = amendedResolvedField condSchema ifError :=
  C3_field_resolution condSchema ifError (Or.inl rfl)

end AjvForm
